import Mathlib

/-!
Verification of the core components of the Advance_Rag_Chatbot repository:
conversation memory (src/utils/memory.py), the document chunker
(src/utils/document_processor.py), the cross-encoder re-ranker
(src/utils/reranker.py), the vector-store wrapper (src/utils/vector_store.py)
and the heuristic RAG evaluator (src/utils/evaluator.py).

The Python code is shallowly embedded: pure functions become Lean functions,
the mutable per-session dictionary becomes explicit state passing, Python
floats become exact rationals (ℚ), and the opaque external services
(cross-encoder scoring, the vector-database engine) become function
parameters respectively list-level models taken from the specification's
interface section.
-/

/-! ### Python string primitives

The repository manipulates Python strings with `len`, `str.strip`,
`" ".join`, negative slicing `s[-k:]`, `str.lower`, and the regular
expressions `(?<=[.!?])\s+` (sentence split) and `\b[a-z]{2,}\b` (token
extraction).  These are embedded below on `List Char` / `String`.
ASCII semantics are used throughout (the document processor strips
non-ASCII characters before chunking, and the token regex only ever
matches ASCII letters). -/

/-- Python `len` on a string: number of characters. -/
def pyLen (s : String) : Nat := s.data.length

/-- Python's `\s` / `str.strip` whitespace class, ASCII part:
space, tab, newline, carriage return, vertical tab, form feed. -/
def pySpace (c : Char) : Bool :=
  c = ' ' || c = '\t' || c = '\n' || c = '\r' || c = '\x0b' || c = '\x0c'

/-- Right-trim of a character list (drop trailing whitespace). -/
def trimRight (l : List Char) : List Char :=
  (l.reverse.dropWhile pySpace).reverse

/-- Python `str.strip()`: drop leading and trailing whitespace. -/
def pyStripL (l : List Char) : List Char :=
  (trimRight l).dropWhile pySpace

/-- Python `str.strip()` on `String`. -/
def pyStrip (s : String) : String := ⟨pyStripL s.data⟩

/-- Python `" ".join(xs)`. -/
def joinSpace : List String → String
  | [] => ""
  | [x] => x
  | x :: xs => x ++ " " ++ joinSpace xs

/-- Python `s[-k:]` for a non-negative `k`.  Beware the Python corner
case: for `k = 0` the slice `s[-0:]` is `s[0:]`, i.e. the whole string. -/
def pyTailSlice (s : String) (k : Nat) : String :=
  if k = 0 then s else ⟨s.data.drop (s.data.length - k)⟩

/-- Python `str.lower()` (ASCII letters). -/
def pyLower (s : String) : String := ⟨s.data.map Char.toLower⟩

/-- Splitting on the regex `(?<=[.!?])\s+` used by both
`DocumentProcessor._split_text` and `RAGEvaluator._split_sentences`:
a separator is a maximal whitespace run immediately preceded by `.`,
`!` or `?`.  `acc` holds the current piece reversed, `prev` the previous
character (the lookbehind). -/
def splitSentencesAux : Nat → List Char → List Char → Option Char → List (List Char)
  | 0, _, acc, _ => [acc.reverse]
  | _ + 1, [], acc, _ => [acc.reverse]
  | fuel + 1, c :: rest, acc, prev =>
    if pySpace c ∧ (prev = some '.' ∨ prev = some '!' ∨ prev = some '?') then
      acc.reverse :: splitSentencesAux fuel (rest.dropWhile pySpace) [] none
    else
      splitSentencesAux fuel rest (c :: acc) (some c)

/-- Python `re.split(r'(?<=[.!?])\s+', text)`.  The fuel
(`text.length + 1`) strictly dominates the scan (each step consumes at
least one character), so the recursion is structural and
kernel-computable. -/
def pySplitSentences (text : String) : List String :=
  (splitSentencesAux (text.data.length + 1) text.data [] none).map (fun l => ⟨l⟩)

/-! ### ConversationMemory (src/utils/memory.py)

`ConversationMemory` keeps a dictionary from session id to a
`deque(maxlen = 2 * max_turns)` of turns.  The dictionary is embedded as a
function `String → Option (List Turn)`; the bounded deque's append-evicts
behaviour is `List.drop` of the excess from the front.  `datetime.now()`
is threaded in as an explicit timestamp argument. -/

/-- One conversation turn `{"role": ..., "content": ..., "ts": ...}`. -/
structure Turn where
  role : String
  content : String
  ts : String
deriving DecidableEq, Repr

/-- The `ConversationMemory` object: `max_turns` plus the
`session_id → deque` mapping. -/
structure ConversationMemory where
  max_turns : Nat
  sessions : String → Option (List Turn)

namespace ConversationMemory

/-- `ConversationMemory(max_turns)`: fresh memory with no sessions. -/
def init (max_turns : Nat) : ConversationMemory :=
  { max_turns := max_turns, sessions := fun _ => none }

/-- `add_turn(session_id, role, content)`.  A missing session is created
as an empty deque with `maxlen = max_turns * 2`; appending to a full
deque evicts from the front, which is `List.drop` of the length excess. -/
def add_turn (m : ConversationMemory) (session_id role content ts : String) :
    ConversationMemory :=
  let h := (m.sessions session_id).getD []
  let h2 := h ++ [{ role := role, content := content, ts := ts }]
  let h3 := h2.drop (h2.length - 2 * m.max_turns)
  { m with sessions := fun k => if k = session_id then some h3 else m.sessions k }

/-- `get_history(session_id)`: the full turn list, `[]` for an unknown
session. -/
def get_history (m : ConversationMemory) (session_id : String) : List Turn :=
  (m.sessions session_id).getD []

/-- `clear(session_id)`: `self._sessions.pop(session_id, None)`. -/
def clear (m : ConversationMemory) (session_id : String) : ConversationMemory :=
  { m with sessions := fun k => if k = session_id then none else m.sessions k }

/-- Folding a whole sequence of `add_turn` calls for one session over a
memory. -/
def add_all (m : ConversationMemory) (session_id : String) (ts : List Turn) :
    ConversationMemory :=
  ts.foldl (fun mem t => add_turn mem session_id t.role t.content t.ts) m

end ConversationMemory

/-! ### DocumentProcessor._split_text (src/utils/document_processor.py)

Sentence-aware sliding-window chunking: sentences are accumulated into a
buffer `current` with running length `curr_len`; when the next sentence
would push past `chunk_size` (and the buffer is non-empty) the buffer is
closed into a chunk and the new buffer is seeded with the trailing
`chunk_overlap` characters of the closed chunk's text.  The state also
records every overlap seed produced (the `overlaps` field); this extra
field never influences `chunks`/`current`/`curr_len` and exists only so
that the overlap-length invariant can be stated. -/

/-- A `DocumentChunk` with its metadata dictionary flattened:
`metadata = {"source": source, "chunk_idx": ..., "char_count": ...}`. -/
structure DocumentChunk where
  text : String
  source : String
  chunk_idx : Nat
  char_count : Nat
deriving DecidableEq, Repr

/-- Loop state of `_split_text`: produced chunks, the sentence buffer
`current`, its running character count `curr_len`, and (ghost) the list
of overlap seeds produced so far. -/
structure SplitState where
  chunks : List DocumentChunk
  current : List String
  curr_len : Nat
  overlaps : List String
deriving Repr

/-- One iteration of the `for sentence in sentences` loop of
`_split_text`. -/
def splitStep (chunk_size chunk_overlap : Nat) (source : String)
    (st : SplitState) (sentence : String) : SplitState :=
  let s_len := pyLen sentence
  let st2 :=
    if chunk_size < st.curr_len + s_len ∧ st.current ≠ [] then
      let chunk_text := pyStrip (joinSpace st.current)
      let chunks2 :=
        if chunk_text ≠ "" then
          st.chunks ++ [{ text := chunk_text, source := source,
                          chunk_idx := st.chunks.length,
                          char_count := pyLen chunk_text }]
        else st.chunks
      let overlap_text := pyTailSlice chunk_text chunk_overlap
      { chunks := chunks2, current := [overlap_text],
        curr_len := pyLen overlap_text,
        overlaps := st.overlaps ++ [overlap_text] }
    else st
  { st2 with current := st2.current ++ [sentence],
             curr_len := st2.curr_len + s_len + 1 }

/-- The loop of `_split_text` over all sentences, from the empty state. -/
def splitRun (chunk_size chunk_overlap : Nat) (text source : String) :
    SplitState :=
  (pySplitSentences text).foldl (splitStep chunk_size chunk_overlap source)
    { chunks := [], current := [], curr_len := 0, overlaps := [] }

/-- The `# Flush remaining` tail of `_split_text`. -/
def splitFlush (source : String) (st : SplitState) : List DocumentChunk :=
  if st.current ≠ [] then
    let chunk_text := pyStrip (joinSpace st.current)
    if chunk_text ≠ "" then
      st.chunks ++ [{ text := chunk_text, source := source,
                      chunk_idx := st.chunks.length,
                      char_count := pyLen chunk_text }]
    else st.chunks
  else st.chunks

/-- `DocumentProcessor._split_text(text, source)` for a processor
configured with `chunk_size` and `chunk_overlap`. -/
def _split_text (chunk_size chunk_overlap : Nat) (text source : String) :
    List DocumentChunk :=
  splitFlush source (splitRun chunk_size chunk_overlap text source)

/-- The overlap seeds (`chunk_text[-chunk_overlap:]` strings) produced
while chunking `text`. -/
def splitOverlaps (chunk_size chunk_overlap : Nat) (text source : String) :
    List String :=
  (splitRun chunk_size chunk_overlap text source).overlaps

/-- Length of the longest sentence the sentence splitter produces for
`text` (`0` when all sentences are empty). -/
def maxSentLen (text : String) : Nat :=
  ((pySplitSentences text).map pyLen).foldr max 0

/-! ### Reranker (src/utils/reranker.py)

`Reranker.rerank` scores `(query, doc["text"])` pairs with an external
cross-encoder (`self._model.predict`), writes a `rerank_score` key into
every input hit dict in place, sorts the hits by that score descending
(Python `sorted` with `reverse=True`, a stable sort) and returns the top
`top_k`.  The opaque model is a parameter `Option Scorer`; `none` is the
load-failure fall-through state.  The scorer's output models
`round(float(score), 4)`, absorbing the rounding into the opaque score.
Because the Python code mutates the caller's hit dicts, the embedding
returns, besides the result list, the post-call state of the input list
(`docs_after`) and the number of (query, text) pairs sent to the scoring
service (`score_calls`). -/

/-- The opaque cross-encoder scoring service:
`(query, passage) ↦ relevance score`. -/
def Scorer : Type := String → String → ℚ

/-- A retrieval hit dict (`{"text": ..., "score": ..., ...}`); the
`rerank_score` key is absent (`none`) until `rerank` writes it. -/
structure RetrievedDoc where
  text : String
  score : ℚ
  rerank_score : Option ℚ
deriving DecidableEq, Repr

/-- The sort key `lambda d: d["rerank_score"]` (every doc passed to
`sorted` has the key set; `getD` is just total-ization). -/
def rerankKey (d : RetrievedDoc) : ℚ := d.rerank_score.getD 0

/-- Stable insertion into a descending-sorted list; an element is placed
after all existing elements with an equal or larger key, which is the
Python stable-sort behaviour of `sorted(..., reverse=True)`. -/
def insertDesc (d : RetrievedDoc) : List RetrievedDoc → List RetrievedDoc
  | [] => [d]
  | x :: xs => if rerankKey x < rerankKey d then d :: x :: xs else x :: insertDesc d xs

/-- `sorted(documents, key=lambda d: d["rerank_score"], reverse=True)`. -/
def pySortDesc (l : List RetrievedDoc) : List RetrievedDoc :=
  l.foldr insertDesc []

/-- Result of a `rerank` call: the returned list, the caller's document
list after the call (Python mutates the dicts in place), and how many
(query, passage) pairs were scored by the external service. -/
structure RerankResult where
  output : List RetrievedDoc
  docs_after : List RetrievedDoc
  score_calls : Nat
deriving Repr

/-- `Reranker.rerank(query, documents, top_k)`.  `model = none` is the
"load failed" fall-through (`self._model is None`). -/
def rerank (model : Option Scorer) (query : String)
    (documents : List RetrievedDoc) (top_k : Nat) : RerankResult :=
  if documents.isEmpty then
    { output := [], docs_after := documents, score_calls := 0 }
  else
    match model with
    | none => { output := documents.take top_k, docs_after := documents, score_calls := 0 }
    | some m =>
      let pairs := documents.map (fun d => (query, d.text))
      let scores := pairs.map (fun p => m p.1 p.2)
      let scored := List.zipWith (fun d s => { d with rerank_score := some s }) documents scores
      let ranked := pySortDesc scored
      { output := ranked.take top_k, docs_after := scored, score_calls := pairs.length }

/-! ### VectorStore (src/utils/vector_store.py)

The ChromaDB collection is an external engine; per spec §2/§6 it is an
opaque upsert/query service over stored entries.  The collection is
embedded as the list of its entries, ordered nearest-first for the query
at hand (the engine's ranking is opaque), with an opaque distance
function; `query(n_results = n)` returning the `min(n, count)` nearest
entries and `get(where=...)`/`delete(ids)` selecting respectively
removing by metadata are Modelled from the spec: the chromadb engine
internals are not part of the repository. -/

/-- One stored entry: chunk text plus its metadata. -/
structure StoredEntry where
  text : String
  source : String
  chunk_idx : Nat
deriving DecidableEq, Repr

/-- A similarity-search hit `{"text", "metadata", "score": 1 - dist}`. -/
structure SearchHit where
  text : String
  source : String
  chunk_idx : Nat
  score : ℚ
deriving DecidableEq, Repr

/-- The `n_results` argument `similarity_search` passes to the engine:
`min(top_k, self._collection.count() or 1)`.  Python's `x or 1` turns a
zero count into `1`. -/
def n_results (top_k count : Nat) : Nat :=
  min top_k (if count = 0 then 1 else count)

/-- `VectorStore.similarity_search(query, top_k, source_filter)`.
`store` is the collection's content in the engine's nearest-first order
for this query and `dist` its opaque cosine distances (Modelled from the
spec: the external engine returns the `n_results` nearest entries with
their distances). -/
def similarity_search (store : List StoredEntry) (dist : StoredEntry → ℚ)
    (top_k : Nat) (source_filter : Option String) : List SearchHit :=
  let matching :=
    match source_filter with
    | none => store
    | some s => store.filter (fun e => e.source == s)
  let hits := (matching.take (n_results top_k store.length)).map fun e =>
    { text := e.text, source := e.source, chunk_idx := e.chunk_idx,
      score := 1 - dist e }
  hits

/-- `VectorStore.delete_source(source)`: `get(where={"source": source})`,
then `delete(ids)` when any ids matched, else
`raise ValueError(f"Source '{source}' not found in vector store")`
(the spec's `NotFoundError`).  Engine `get`/`delete` are Modelled from
the spec: ids are unique per entry, so deleting the matched ids removes
exactly the matching entries. -/
def delete_source (store : List StoredEntry) (source : String) :
    Except String (List StoredEntry) :=
  let matched := store.filter (fun e => e.source == source)
  if matched.isEmpty then
    Except.error ("Source '" ++ source ++ "' not found in vector store")
  else
    Except.ok (store.filter (fun e => !(e.source == source)))

/-! ### RAGEvaluator (src/utils/evaluator.py)

Lexical metrics over lower-cased tokens.  `_tokenize` is
`re.findall(r'\b[a-z]{2,}\b', text.lower())`: after lower-casing, the
matches are exactly the maximal word-character runs (`[a-zA-Z0-9_]`,
ASCII) that consist solely of `a`-`z` and have length at least 2.
Python `round(x, 4)` is embedded exactly as round-half-to-even at four
decimal places over ℚ. -/

/-- Regex word characters `\w` (ASCII): letters, digits, underscore. -/
def isWordChar (c : Char) : Bool := c.isAlpha || c.isDigit || c = '_'

/-- Is `c` a lower-case ASCII letter (the `[a-z]` class)? -/
def isLowerAlpha (c : Char) : Bool := 'a' ≤ c && c ≤ 'z'

/-- Maximal runs of word characters in a character list (fuel-driven so
the recursion is structural and kernel-computable; each step consumes at
least one character). -/
def wordRuns : Nat → List Char → List (List Char)
  | 0, _ => []
  | _ + 1, [] => []
  | fuel + 1, c :: cs =>
    if isWordChar c then
      ((c :: cs).takeWhile isWordChar) :: wordRuns fuel ((c :: cs).dropWhile isWordChar)
    else
      wordRuns fuel cs

/-- `RAGEvaluator._tokenize(text)`:
`re.findall(r'\b[a-z]{2,}\b', text.lower())`. -/
def pyTokenize (text : String) : List String :=
  ((wordRuns ((pyLower text).data.length + 1) (pyLower text).data).filter
    (fun run => 2 ≤ run.length && run.all isLowerAlpha)).map (fun run => ⟨run⟩)

/-- `RAGEvaluator._split_sentences(text)`:
`[s.strip() for s in re.split(r'(?<=[.!?])\s+', text) if s.strip()]`. -/
def pySplitSentClean (text : String) : List String :=
  ((pySplitSentences text).map pyStrip).filter (fun s => !(s == ""))

/-- Round-half-to-even of a rational to an integer (the rounding mode of
Python's builtin `round`). -/
def rhe (q : ℚ) : ℤ :=
  let f := Rat.floor q
  let r := q - (f : ℚ)
  if r < 1/2 then f
  else if (1 : ℚ)/2 < r then f + 1
  else if Even f then f else f + 1

/-- Python `round(x, 4)` on ℚ. -/
def round4 (q : ℚ) : ℚ := (rhe (q * 10000) : ℚ) / 10000

/-- The stop-word set of `_answer_relevancy`. -/
def stopwords : Finset String :=
  {"what", "is", "the", "a", "an", "of", "in", "to", "how",
   "does", "do", "can", "who", "when", "where", "why", "which"}

/-- `RAGEvaluator._faithfulness(answer, contexts)`. -/
def _faithfulness (answer : String) (contexts : List String) : ℚ :=
  if contexts.isEmpty || answer == "" then 0
  else
    let answer_sentences := pySplitSentClean answer
    if answer_sentences.isEmpty then 0
    else
      let combined_context := pyLower (joinSpace contexts)
      let ctx_tokens := (pyTokenize combined_context).toFinset
      let supported := answer_sentences.countP fun sent =>
        decide (((pyTokenize sent).toFinset ≠ ∅) ∧
          (1 : ℚ)/2 < (((pyTokenize sent).toFinset ∩ ctx_tokens).card : ℚ) /
            ((pyTokenize sent).toFinset.card : ℚ))
      round4 ((supported : ℚ) / (answer_sentences.length : ℚ))

/-- `RAGEvaluator._answer_relevancy(question, answer)`. -/
def _answer_relevancy (question answer : String) : ℚ :=
  if question == "" || answer == "" then 0
  else
    let q_tokens := (pyTokenize question).toFinset \ stopwords
    let a_tokens := (pyTokenize answer).toFinset
    if q_tokens = ∅ then 1/2
    else
      let overlap := (q_tokens ∩ a_tokens).card
      let score := min ((overlap : ℚ) / (q_tokens.card : ℚ)) 1
      let score2 := if pyLen answer < 20 then score * (1/2) else score
      round4 score2

/-- `RAGEvaluator._context_precision(question, contexts)`. -/
def _context_precision (question : String) (contexts : List String) : ℚ :=
  if contexts.isEmpty then 0
  else
    let q_tokens := (pyTokenize question).toFinset
    if q_tokens = ∅ then 1/2
    else
      let relevant := contexts.countP fun ctx =>
        decide ((3 : ℚ)/10 <
          ((q_tokens ∩ (pyTokenize ctx).toFinset).card : ℚ) / (q_tokens.card : ℚ))
      round4 ((relevant : ℚ) / (contexts.length : ℚ))

/-- `RAGEvaluator._context_recall(contexts, ground_truth)`. -/
def _context_recall (contexts : List String) (ground_truth : String) : ℚ :=
  if ground_truth == "" || contexts.isEmpty then 0
  else
    let gt_tokens := (pyTokenize ground_truth).toFinset
    let ctx_tokens := (pyTokenize (joinSpace contexts)).toFinset
    if gt_tokens = ∅ then 1/2
    else round4 (min (((gt_tokens ∩ ctx_tokens).card : ℚ) / (gt_tokens.card : ℚ)) 1)

/-- `RAGEvaluator._answer_correctness(answer, ground_truth)` (token
multiset F1; `Counter & Counter` is multiset intersection and
`sum(c.values())` is multiset cardinality). -/
def _answer_correctness (answer ground_truth : String) : ℚ :=
  if ground_truth == "" || answer == "" then 0
  else
    let a_tokens : Multiset String := (pyTokenize answer : List String)
    let gt_tokens : Multiset String := (pyTokenize ground_truth : List String)
    let common := Multiset.card (a_tokens ∩ gt_tokens)
    if common = 0 then 0
    else
      let p := (common : ℚ) / (Multiset.card a_tokens : ℚ)
      let r := (common : ℚ) / (Multiset.card gt_tokens : ℚ)
      round4 (2 * p * r / (p + r))

/-- The dict `RAGEvaluator.evaluate` returns, flattened:
the five metric entries (`none` = key absent / value `None`),
the aggregate and the qualitative label. -/
structure EvaluationScores where
  faithfulness : ℚ
  answer_relevancy : ℚ
  context_precision : ℚ
  context_recall : Option ℚ
  answer_correctness : Option ℚ
  aggregate : ℚ
  quality_label : String
deriving Repr

/-- Python truthiness of the `Optional[str]` ground truth: present and
non-empty. -/
def pyTruthy (o : Option String) : Bool :=
  match o with
  | none => false
  | some s => !(s == "")

/-- `RAGEvaluator.evaluate(question, answer, contexts, ground_truth)`. -/
def evaluate (question answer : String) (contexts : List String)
    (ground_truth : Option String) : EvaluationScores :=
  let f := _faithfulness answer contexts
  let ar := _answer_relevancy question answer
  let cp := _context_precision question contexts
  let cr : Option ℚ :=
    if pyTruthy ground_truth then some (_context_recall contexts (ground_truth.getD ""))
    else none
  let ac : Option ℚ :=
    if pyTruthy ground_truth then some (_answer_correctness answer (ground_truth.getD ""))
    else none
  let valid := List.reduceOption [some f, some ar, some cp, cr, ac]
  let aggregate :=
    if valid.length ≠ 0 then round4 (valid.sum / (valid.length : ℚ)) else 0
  let quality_label :=
    if (0.8 : ℚ) ≤ aggregate then "Excellent ✅"
    else if (0.6 : ℚ) ≤ aggregate then "Good 🟡"
    else if (0.4 : ℚ) ≤ aggregate then "Fair 🟠"
    else "Poor 🔴"
  { faithfulness := f, answer_relevancy := ar, context_precision := cp,
    context_recall := cr, answer_correctness := ac,
    aggregate := aggregate, quality_label := quality_label }

/-- The non-null metric scores of a returned evaluation dict, in the
dict's insertion order (what the aggregation step averages). -/
def validScores (r : EvaluationScores) : List ℚ :=
  List.reduceOption [some r.faithfulness, some r.answer_relevancy,
    some r.context_precision, r.context_recall, r.answer_correctness]

/-! ### Theorems: conversation memory (claims C1, C10) -/

/-- `add_turn` keeps `max_turns` unchanged. -/
theorem add_turn_max_turns (m : ConversationMemory) (sid role content ts : String) :
    (m.add_turn sid role content ts).max_turns = m.max_turns := rfl

/-- One `add_turn` appends the new turn and evicts the front excess over
`2 * max_turns`. -/
theorem get_history_add_turn (m : ConversationMemory) (sid role content ts : String) :
    (m.add_turn sid role content ts).get_history sid =
      (m.get_history sid ++ [Turn.mk role content ts]).drop
        ((m.get_history sid).length + 1 - 2 * m.max_turns) := by
  simp [ConversationMemory.add_turn, ConversationMemory.get_history]

/-- After any fold of `add_turn` calls for one session, the history is
exactly the trailing window of the previous history plus the appended
turns. -/
theorem add_all_history (sid : String) (ts : List Turn) :
    ∀ (m : ConversationMemory),
      (m.get_history sid).length ≤ 2 * m.max_turns →
      (m.add_all sid ts).get_history sid =
        (m.get_history sid ++ ts).drop
          ((m.get_history sid).length + ts.length - 2 * m.max_turns) := by
  induction ts with
  | nil =>
    intro m hm
    simp only [ConversationMemory.add_all, List.foldl_nil, List.append_nil,
      List.length_nil, Nat.add_zero]
    have : (m.get_history sid).length - 2 * m.max_turns = 0 := by omega
    rw [this, List.drop_zero]
  | cons t rest ih =>
    intro m hm
    have hstep : (ConversationMemory.add_all m sid (t :: rest)) =
        ConversationMemory.add_all (m.add_turn sid t.role t.content t.ts) sid rest := by
      simp [ConversationMemory.add_all]
    set m1 := m.add_turn sid t.role t.content t.ts with hm1
    have hmax : m1.max_turns = m.max_turns := rfl
    have hh1 : m1.get_history sid =
        (m.get_history sid ++ [t]).drop
          ((m.get_history sid).length + 1 - 2 * m.max_turns) := by
      simpa using get_history_add_turn m sid t.role t.content t.ts
    have hlen1 : (m1.get_history sid).length ≤ 2 * m1.max_turns := by
      rw [hh1, hmax, List.length_drop, List.length_append]
      simp only [List.length_cons, List.length_nil]
      omega
    have hrec := ih m1 hlen1
    rw [hstep, hrec, hmax, hh1]
    set h := m.get_history sid
    set d := h.length + 1 - 2 * m.max_turns with hd
    have hdle : d ≤ (h ++ [t]).length := by
      rw [List.length_append]; simp only [List.length_cons, List.length_nil]; omega
    rw [← List.drop_append_of_le_length hdle, List.drop_drop]
    have hlen2 : ((h ++ [t]).drop d).length = h.length + 1 - d := by
      rw [List.length_drop, List.length_append]
      simp only [List.length_cons, List.length_nil]
    rw [hlen2]
    have harr : d + (h.length + 1 - d + rest.length - 2 * m.max_turns)
        = h.length + (t :: rest).length - 2 * m.max_turns := by
      simp only [List.length_cons]; omega
    rw [harr]
    have hassoc : (h ++ [t]) ++ rest = h ++ t :: rest := by
      rw [List.append_assoc, List.singleton_append]
    rw [hassoc]

/-- Claim C1: for every session and every sequence of `add_turn` calls,
the session's history after each call is at most `2 * max_turns` long,
and the retained turns are exactly the most recently appended ones in
append order (the trailing window of the appended sequence; instantiating
`ts` with each prefix of the call sequence gives the property after each
call). -/
theorem C1_memory_sliding_window (max_turns : Nat) (sid : String) (ts : List Turn) :
    ((ConversationMemory.init max_turns).add_all sid ts).get_history sid =
      ts.drop (ts.length - 2 * max_turns) ∧
    (((ConversationMemory.init max_turns).add_all sid ts).get_history sid).length
      ≤ 2 * max_turns := by
  have h0 : (ConversationMemory.init max_turns).get_history sid = [] := rfl
  have hlen : ((ConversationMemory.init max_turns).get_history sid).length
      ≤ 2 * (ConversationMemory.init max_turns).max_turns := by
    rw [h0]; exact Nat.zero_le _
  have h := add_all_history sid ts (ConversationMemory.init max_turns) hlen
  rw [h0] at h
  simp only [List.nil_append, List.length_nil, Nat.zero_add] at h
  have hmax : (ConversationMemory.init max_turns).max_turns = max_turns := rfl
  rw [hmax] at h
  refine ⟨h, ?_⟩
  rw [h, List.length_drop]
  omega

/-- Claim C10: `clear` is idempotent and total: clearing an unknown
session leaves the memory unchanged, clearing twice equals clearing
once, and after a clear the session's history is empty and the session
is back in the unknown state. -/
theorem C10_clear_idempotent_total (m : ConversationMemory) (sid : String) :
    (m.sessions sid = none → m.clear sid = m) ∧
    (m.clear sid).clear sid = m.clear sid ∧
    (m.clear sid).get_history sid = [] ∧
    (m.clear sid).sessions sid = none := by
  refine ⟨?_, ?_, ?_, ?_⟩
  · intro hnone
    obtain ⟨M, f⟩ := m
    simp only [ConversationMemory.clear, ConversationMemory.mk.injEq, true_and]
    funext k
    by_cases hk : k = sid
    · subst hk; simpa using hnone.symm
    · simp [hk]
  · obtain ⟨M, f⟩ := m
    simp only [ConversationMemory.clear, ConversationMemory.mk.injEq, true_and]
    funext k
    by_cases hk : k = sid <;> simp [hk]
  · simp [ConversationMemory.clear, ConversationMemory.get_history]
  · simp [ConversationMemory.clear]

/-- Witness for C10 at a concrete input: clearing a never-written session
of a fresh memory is a no-op. -/
theorem C10_clear_idempotent_total_witness :
    (ConversationMemory.init 10).clear "s" = ConversationMemory.init 10 :=
  (C10_clear_idempotent_total (ConversationMemory.init 10) "s").1 rfl

/-! ### Theorems: re-ranker (claims C3, C9) -/

/-- Membership after a stable descending insertion. -/
theorem mem_insertDesc (d y : RetrievedDoc) (l : List RetrievedDoc) :
    y ∈ insertDesc d l ↔ y = d ∨ y ∈ l := by
  induction l with
  | nil => simp [insertDesc]
  | cons x xs ih =>
    simp only [insertDesc]
    split
    · simp [or_comm, or_assoc, or_left_comm]
    · simp [ih, or_comm, or_assoc, or_left_comm]

/-- Stable descending insertion preserves descending sortedness. -/
theorem pairwise_insertDesc (d : RetrievedDoc) (l : List RetrievedDoc)
    (h : l.Pairwise (fun a b => rerankKey b ≤ rerankKey a)) :
    (insertDesc d l).Pairwise (fun a b => rerankKey b ≤ rerankKey a) := by
  induction l with
  | nil => simp [insertDesc]
  | cons x xs ih =>
    rw [List.pairwise_cons] at h
    obtain ⟨hx, hxs⟩ := h
    simp only [insertDesc]
    split
    · rename_i hlt
      refine List.Pairwise.cons ?_ (List.Pairwise.cons hx hxs)
      intro y hy
      rcases List.mem_cons.mp hy with rfl | hy2
      · exact le_of_lt hlt
      · exact le_trans (hx y hy2) (le_of_lt hlt)
    · rename_i hnlt
      refine List.Pairwise.cons ?_ (ih hxs)
      intro y hy
      rcases (mem_insertDesc d y xs).mp hy with rfl | hy2
      · exact not_lt.mp hnlt
      · exact hx y hy2

/-- The embedded Python stable sort returns a descending-sorted list. -/
theorem pairwise_pySortDesc (l : List RetrievedDoc) :
    (pySortDesc l).Pairwise (fun a b => rerankKey b ≤ rerankKey a) := by
  induction l with
  | nil => simp [pySortDesc]
  | cons x xs ih => exact pairwise_insertDesc x _ ih

/-- Insertion grows the length by one. -/
theorem length_insertDesc (d : RetrievedDoc) (l : List RetrievedDoc) :
    (insertDesc d l).length = l.length + 1 := by
  induction l with
  | nil => rfl
  | cons x xs ih =>
    simp only [insertDesc]
    split
    · rfl
    · simp [ih]

/-- Sorting preserves the length. -/
theorem length_pySortDesc (l : List RetrievedDoc) :
    (pySortDesc l).length = l.length := by
  induction l with
  | nil => rfl
  | cons x xs ih =>
    show (insertDesc x (pySortDesc xs)).length = xs.length + 1
    rw [length_insertDesc, ih]

/-- Writing the scores into the hit dicts, position by position. -/
theorem zipWith_write_scores (q : String) (sc : Scorer) (docs : List RetrievedDoc) :
    List.zipWith (fun d s => { d with rerank_score := some s }) docs
        (docs.map (fun d => sc q d.text)) =
      docs.map (fun d => { d with rerank_score := some (sc q d.text) }) := by
  induction docs with
  | nil => rfl
  | cons x xs ih => simp [ih]

/-- Claim C3: `rerank` returns at most `min(top_k, len(input))` hits;
with an active scoring service the output is sorted descending by
`rerank_score`; and an empty input returns an empty output without a
single call to the scoring service. -/
theorem C3_rerank_contract :
    (∀ (model : Option Scorer) (query : String) (docs : List RetrievedDoc) (k : Nat),
      (rerank model query docs k).output.length ≤ min k docs.length) ∧
    (∀ (sc : Scorer) (query : String) (docs : List RetrievedDoc) (k : Nat),
      ((rerank (some sc) query docs k).output).Pairwise
        (fun a b => rerankKey b ≤ rerankKey a)) ∧
    (∀ (model : Option Scorer) (query : String) (k : Nat),
      rerank model query [] k = { output := [], docs_after := [], score_calls := 0 }) := by
  refine ⟨?_, ?_, ?_⟩
  · intro model query docs k
    by_cases hd : docs.isEmpty
    · rw [List.isEmpty_iff] at hd
      subst hd
      simp [rerank]
    · cases model with
      | none => simp [rerank, hd]
      | some sc =>
        simp only [rerank, hd, Bool.false_eq_true, if_false]
        rw [List.length_take, length_pySortDesc]
        have : (List.zipWith (fun d s => { d with rerank_score := some s }) docs
            ((docs.map (fun d => (query, d.text))).map (fun p => sc p.1 p.2))).length
            = docs.length := by
          rw [List.length_zipWith, List.length_map, List.length_map]
          omega
        rw [this]
  · intro sc query docs k
    by_cases hd : docs.isEmpty
    · rw [List.isEmpty_iff] at hd
      subst hd
      simp [rerank]
    · simp only [rerank, hd, Bool.false_eq_true, if_false]
      exact List.Pairwise.sublist (List.take_sublist _ _) (pairwise_pySortDesc _)
  · intro model query k
    cases model <;> rfl

/-- Claim C9: with an active scoring service, `rerank` mutates its input:
after the call every hit dict of the caller's list — including the hits
beyond the returned `top_n` — carries a freshly written `rerank_score`,
with text and retrieval score untouched. -/
theorem C9_rerank_mutates_input (sc : Scorer) (query : String)
    (docs : List RetrievedDoc) (k : Nat) :
    (rerank (some sc) query docs k).docs_after =
      docs.map (fun d => { d with rerank_score := some (sc query d.text) }) := by
  by_cases hd : docs.isEmpty
  · rw [List.isEmpty_iff] at hd
    subst hd
    rfl
  · simp only [rerank, hd, Bool.false_eq_true, if_false]
    rw [List.map_map]
    exact zipWith_write_scores query sc docs

/-! ### Theorems: vector store (claims C5, C6) -/

/-- Counterexample for claim C5 as stated: on an empty index
(`count() = 0`) with `top_k = 5 > 0 = count`, `similarity_search`
requests `min(5, 0 or 1) = 1` result from the engine — one more than the
index holds, so the requested count is *not* clamped to the index's
current size.  (The `or 1` exists because the engine rejects
`n_results = 0`.) -/
theorem C5_counterexample :
    n_results 5 (List.length ([] : List StoredEntry)) = 1 ∧
    ¬ (n_results 5 (List.length ([] : List StoredEntry)) ≤
        (List.length ([] : List StoredEntry))) := by
  constructor
  · rfl
  · decide

/-- Claim C5, amended: for every *non-empty* index and every `top_k`
exceeding the index's current entry count, the requested result count is
clamped to the index size (never more than the index holds) and the
search returns all available entries.  (On an empty index the code
requests one result instead of zero.) -/
theorem C5_topk_clamped (store : List StoredEntry) (dist : StoredEntry → ℚ)
    (top_k : Nat) (h1 : 1 ≤ store.length) (h2 : store.length < top_k) :
    n_results top_k store.length = store.length ∧
    (similarity_search store dist top_k none).length = store.length := by
  have hne : store.length ≠ 0 := by omega
  have hn : n_results top_k store.length = store.length := by
    simp only [n_results, hne, if_false]
    exact min_eq_right (le_of_lt h2)
  refine ⟨hn, ?_⟩
  simp only [similarity_search, hn, List.length_map, List.length_take]
  exact min_self _

/-- Witness for the amended C5 at a concrete input: a two-entry index
queried with `top_k = 5` returns both entries. -/
theorem C5_topk_clamped_witness :
    n_results 5 (List.length [StoredEntry.mk "t1" "a" 0, StoredEntry.mk "t2" "a" 1])
        = 2 ∧
    (similarity_search [StoredEntry.mk "t1" "a" 0, StoredEntry.mk "t2" "a" 1]
        (fun _ => 0) 5 none).length = 2 :=
  C5_topk_clamped [StoredEntry.mk "t1" "a" 0, StoredEntry.mk "t2" "a" 1]
    (fun _ => 0) 5 (by decide) (by decide)

/-- Claim C6: `delete_source` signals the not-found error exactly when no
stored entry's source matches, and on success the store keeps exactly
the entries of other sources. -/
theorem C6_delete_source_contract (store : List StoredEntry) (source : String) :
    ((∃ msg, delete_source store source = Except.error msg) ↔
      ∀ e ∈ store, e.source ≠ source) ∧
    (∀ l, delete_source store source = Except.ok l →
      ((∀ e ∈ l, e.source ≠ source) ∧ (∀ e ∈ store, e.source ≠ source → e ∈ l))) := by
  have hiff : (store.filter (fun e => e.source == source)).isEmpty = true ↔
      ∀ e ∈ store, e.source ≠ source := by
    rw [List.isEmpty_iff, List.filter_eq_nil_iff]
    constructor
    · intro h e he
      have := h e he
      simpa using this
    · intro h e he
      simpa using h e he
  constructor
  · constructor
    · rintro ⟨msg, hmsg⟩
      by_cases hcase : (store.filter (fun e => e.source == source)).isEmpty
      · exact hiff.mp hcase
      · simp only [delete_source, hcase, Bool.false_eq_true, if_false] at hmsg
        exact Except.noConfusion hmsg
    · intro h
      refine ⟨"Source '" ++ source ++ "' not found in vector store", ?_⟩
      simp only [delete_source, hiff.mpr h, if_true]
  · intro l hl
    by_cases hcase : (store.filter (fun e => e.source == source)).isEmpty
    · simp only [delete_source, hcase, if_true] at hl
      exact Except.noConfusion hl
    · simp only [delete_source, hcase, Bool.false_eq_true, if_false, Except.ok.injEq] at hl
      subst hl
      constructor
      · intro e he
        have := List.of_mem_filter he
        simpa using this
      · intro e he hne
        refine List.mem_filter.mpr ⟨he, ?_⟩
        simpa using hne

/-- Witness for C6 at a concrete input: deleting a source that was never
ingested signals the not-found error. -/
theorem C6_delete_source_contract_witness :
    ∃ msg, delete_source [StoredEntry.mk "x" "a" 0, StoredEntry.mk "y" "b" 0] "zzz"
      = Except.error msg :=
  (C6_delete_source_contract [StoredEntry.mk "x" "a" 0, StoredEntry.mk "y" "b" 0]
    "zzz").1.mpr (by decide)

/-! ### Theorems: chunker indices (claim C8) -/

/-- One loop iteration of `_split_text` preserves "the chunk indices so
far are `0, 1, ..., len-1`" (a new chunk is stamped with
`len(chunks)`). -/
theorem chunks_idx_splitStep (cs co : Nat) (src : String) (st : SplitState)
    (s : String)
    (h : st.chunks.map (fun c => c.chunk_idx) = List.range st.chunks.length) :
    (splitStep cs co src st s).chunks.map (fun c => c.chunk_idx)
      = List.range (splitStep cs co src st s).chunks.length := by
  simp only [splitStep]
  split
  · split
    · rw [List.map_append, h]
      simp only [List.map_cons, List.map_nil, List.length_append,
        List.length_cons, List.length_nil]
      rw [Nat.add_zero, ← List.range_succ]
    · exact h
  · exact h

/-- The whole sentence loop preserves the contiguous-indices invariant. -/
theorem chunks_idx_foldl (cs co : Nat) (src : String) (sents : List String) :
    ∀ st : SplitState,
      st.chunks.map (fun c => c.chunk_idx) = List.range st.chunks.length →
      ((sents.foldl (splitStep cs co src) st).chunks.map (fun c => c.chunk_idx)
        = List.range (sents.foldl (splitStep cs co src) st).chunks.length) := by
  induction sents with
  | nil => intro st h; simpa using h
  | cons s rest ih =>
    intro st h
    rw [List.foldl_cons]
    exact ih _ (chunks_idx_splitStep cs co src st s h)

/-- The final flush preserves the contiguous-indices invariant. -/
theorem chunks_idx_splitFlush (src : String) (st : SplitState)
    (h : st.chunks.map (fun c => c.chunk_idx) = List.range st.chunks.length) :
    (splitFlush src st).map (fun c => c.chunk_idx)
      = List.range (splitFlush src st).length := by
  simp only [splitFlush]
  split
  · split
    · rw [List.map_append, h]
      simp only [List.map_cons, List.map_nil, List.length_append,
        List.length_cons, List.length_nil]
      rw [Nat.add_zero, ← List.range_succ]
    · exact h
  · exact h

/-- Claim C8: for every input text and source, the `chunk_idx` values of
the chunks returned by one `_split_text` call are the contiguous
sequence `0, 1, ..., n-1` (chunk `i` carries index `i`). -/
theorem C8_chunk_indices_contiguous (cs co : Nat) (text source : String) :
    (_split_text cs co text source).map (fun c => c.chunk_idx)
      = List.range (_split_text cs co text source).length := by
  unfold _split_text
  refine chunks_idx_splitFlush source _ ?_
  unfold splitRun
  exact chunks_idx_foldl cs co source (pySplitSentences text) _ (by rfl)

/-! ### Theorems: chunker size and overlap bounds (claim C2) -/

/-- Length of a string concatenation. -/
theorem pyLen_append (a b : String) : pyLen (a ++ b) = pyLen a + pyLen b := by
  simp [pyLen, String.data_append]

/-- `joinSpace` on a cons with a non-empty tail. -/
theorem joinSpace_cons (x : String) (l : List String) (h : l ≠ []) :
    joinSpace (x :: l) = x ++ " " ++ joinSpace l := by
  cases l with
  | nil => exact absurd rfl h
  | cons y ys => rfl

/-- Appending one more sentence to a non-empty buffer adds its length
plus one separator space to the joined length. -/
theorem pyLen_joinSpace_append (l : List String) (s : String) (h : l ≠ []) :
    pyLen (joinSpace (l ++ [s])) = pyLen (joinSpace l) + 1 + pyLen s := by
  induction l with
  | nil => exact absurd rfl h
  | cons x xs ih =>
    cases xs with
    | nil =>
      show pyLen (joinSpace [x, s]) = pyLen (joinSpace [x]) + 1 + pyLen s
      show pyLen (x ++ " " ++ s) = pyLen x + 1 + pyLen s
      rw [pyLen_append, pyLen_append]
      rfl
    | cons y ys =>
      have hne : (y :: ys) ++ [s] ≠ [] := by simp
      rw [List.cons_append, joinSpace_cons x _ hne,
        joinSpace_cons x (y :: ys) (by simp), pyLen_append, pyLen_append,
        pyLen_append, pyLen_append, ih (by simp)]
      omega

/-- Stripping never lengthens a string. -/
theorem pyLen_pyStrip_le (s : String) : pyLen (pyStrip s) ≤ pyLen s := by
  simp only [pyStrip, pyStripL, trimRight, pyLen]
  calc (((s.data.reverse.dropWhile pySpace).reverse).dropWhile pySpace).length
      ≤ ((s.data.reverse.dropWhile pySpace).reverse).length :=
        List.Sublist.length_le (List.dropWhile_sublist pySpace)
    _ = (s.data.reverse.dropWhile pySpace).length := List.length_reverse _
    _ ≤ s.data.reverse.length := List.Sublist.length_le (List.dropWhile_sublist pySpace)
    _ = s.data.length := List.length_reverse _

/-- Stripping ignores a trailing space. -/
theorem pyStrip_append_space (s : String) : pyStrip (s ++ " ") = pyStrip s := by
  simp only [pyStrip, pyStripL, trimRight]
  have hdata : (s ++ " ").data = s.data ++ [' '] := by
    rw [String.data_append]
  rw [hdata, List.reverse_append]
  have h1 : List.dropWhile pySpace ([' '].reverse ++ s.data.reverse)
      = List.dropWhile pySpace s.data.reverse := by
    rw [List.reverse_singleton, List.singleton_append, List.dropWhile_cons,
      if_pos (by decide)]
  rw [h1]

/-- A string of length zero is the empty string. -/
theorem eq_empty_of_pyLen_zero (s : String) (h : pyLen s = 0) : s = "" := by
  obtain ⟨data⟩ := s
  simp only [pyLen, List.length_eq_zero] at h
  subst h
  rfl

/-- Appending the empty string is the identity. -/
theorem string_append_empty (s : String) : s ++ "" = s := by
  obtain ⟨data⟩ := s
  show String.mk (data ++ "".data) = String.mk data
  simp

/-- The overlap slice `s[-k:]` has at most `k` characters when
`k ≥ 1`. -/
theorem pyLen_pyTailSlice_le (s : String) (k : Nat) (hk : 1 ≤ k) :
    pyLen (pyTailSlice s k) ≤ k := by
  have : k ≠ 0 := by omega
  simp only [pyTailSlice, this, if_false, pyLen, List.length_drop]
  omega

/-- Every member of a `Nat` list is at most its `foldr max 0`. -/
theorem mem_le_foldr_max (x : Nat) (l : List Nat) (h : x ∈ l) :
    x ≤ l.foldr max 0 := by
  induction l with
  | nil => cases h
  | cons y ys ih =>
    rcases List.mem_cons.mp h with rfl | h2
    · exact le_max_left _ _
    · exact le_trans (ih h2) (le_max_right _ _)

/-- Every sentence of `text` is at most `maxSentLen text` long. -/
theorem pyLen_le_maxSentLen (text s : String) (h : s ∈ pySplitSentences text) :
    pyLen s ≤ maxSentLen text :=
  mem_le_foldr_max _ _ (List.mem_map_of_mem pyLen h)


/-- `joinSpace` distributes over appending one sentence to a non-empty
buffer. -/
theorem joinSpace_append_singleton (l : List String) (s : String) (h : l ≠ []) :
    joinSpace (l ++ [s]) = joinSpace l ++ " " ++ s := by
  induction l with
  | nil => exact absurd rfl h
  | cons x xs ih =>
    cases xs with
    | nil => rfl
    | cons y ys =>
      have hne : (y :: ys) ++ [s] ≠ [] := by simp
      rw [List.cons_append, joinSpace_cons x _ hne,
        joinSpace_cons x (y :: ys) (by simp), ih (by simp)]
      simp [String.append_assoc]

/-- The trigger branch of the `_split_text` loop body, written out. -/
theorem splitStep_eq_pos (cs co : Nat) (src : String) (st : SplitState)
    (s : String) (hcond : cs < st.curr_len + pyLen s ∧ st.current ≠ []) :
    splitStep cs co src st s =
      { chunks :=
          if pyStrip (joinSpace st.current) ≠ "" then
            st.chunks ++ [{ text := pyStrip (joinSpace st.current), source := src,
                            chunk_idx := st.chunks.length,
                            char_count := pyLen (pyStrip (joinSpace st.current)) }]
          else st.chunks,
        current := [pyTailSlice (pyStrip (joinSpace st.current)) co, s],
        curr_len := pyLen (pyTailSlice (pyStrip (joinSpace st.current)) co) + pyLen s + 1,
        overlaps := st.overlaps ++ [pyTailSlice (pyStrip (joinSpace st.current)) co] } := by
  simp only [splitStep, if_pos hcond]
  rfl

/-- The non-trigger branch of the `_split_text` loop body. -/
theorem splitStep_eq_neg (cs co : Nat) (src : String) (st : SplitState)
    (s : String) (hcond : ¬ (cs < st.curr_len + pyLen s ∧ st.current ≠ [])) :
    splitStep cs co src st s =
      { st with current := st.current ++ [s],
                curr_len := st.curr_len + pyLen s + 1 } := by
  simp only [splitStep, if_neg hcond]

/-- The loop-body invariant of `_split_text` for `1 ≤ chunk_overlap <
chunk_size`: produced chunk sizes stay within `chunk_size + M` (`M` a
bound on sentence lengths), overlap seeds stay within `chunk_overlap`,
the joined buffer never exceeds `curr_len`, and the stripped buffer
stays within `chunk_size + M`. -/
theorem splitStep_inv (cs co M : Nat) (src : String) (st : SplitState)
    (s : String) (hco1 : 1 ≤ co) (hcs : co < cs) (hsM : pyLen s ≤ M)
    (h1 : ∀ c ∈ st.chunks, c.char_count ≤ cs + M)
    (h2 : ∀ o ∈ st.overlaps, pyLen o ≤ co)
    (h3 : pyLen (joinSpace st.current) ≤ st.curr_len)
    (h4 : pyLen (pyStrip (joinSpace st.current)) ≤ cs + M) :
    (∀ c ∈ (splitStep cs co src st s).chunks, c.char_count ≤ cs + M) ∧
    (∀ o ∈ (splitStep cs co src st s).overlaps, pyLen o ≤ co) ∧
    pyLen (joinSpace (splitStep cs co src st s).current)
      ≤ (splitStep cs co src st s).curr_len ∧
    pyLen (pyStrip (joinSpace (splitStep cs co src st s).current)) ≤ cs + M := by
  have hsp : pyLen " " = 1 := rfl
  by_cases hcond : cs < st.curr_len + pyLen s ∧ st.current ≠ []
  · rw [splitStep_eq_pos cs co src st s hcond]
    have hov : pyLen (pyTailSlice (pyStrip (joinSpace st.current)) co) ≤ co :=
      pyLen_pyTailSlice_le _ co hco1
    have hjoin2 : joinSpace [pyTailSlice (pyStrip (joinSpace st.current)) co, s]
        = pyTailSlice (pyStrip (joinSpace st.current)) co ++ " " ++ s := rfl
    refine ⟨?_, ?_, ?_, ?_⟩
    · intro c hc
      by_cases hct : pyStrip (joinSpace st.current) ≠ ""
      · rw [if_pos hct] at hc
        rcases List.mem_append.mp hc with hold | hnew
        · exact h1 c hold
        · rcases List.mem_singleton.mp hnew with rfl
          exact h4
      · rw [if_neg hct] at hc
        exact h1 c hc
    · intro o ho
      rcases List.mem_append.mp ho with hold | hnew
      · exact h2 o hold
      · rcases List.mem_singleton.mp hnew with rfl
        exact hov
    · show pyLen (joinSpace [pyTailSlice (pyStrip (joinSpace st.current)) co, s])
        ≤ pyLen (pyTailSlice (pyStrip (joinSpace st.current)) co) + pyLen s + 1
      rw [hjoin2, pyLen_append, pyLen_append, hsp]
      omega
    · show pyLen (pyStrip (joinSpace [pyTailSlice (pyStrip (joinSpace st.current)) co, s]))
        ≤ cs + M
      calc pyLen (pyStrip (joinSpace [pyTailSlice (pyStrip (joinSpace st.current)) co, s]))
          ≤ pyLen (joinSpace [pyTailSlice (pyStrip (joinSpace st.current)) co, s]) :=
            pyLen_pyStrip_le _
        _ = pyLen (pyTailSlice (pyStrip (joinSpace st.current)) co) + 1 + pyLen s := by
            rw [hjoin2, pyLen_append, pyLen_append, hsp]
        _ ≤ cs + M := by omega
  · rw [splitStep_eq_neg cs co src st s hcond]
    refine ⟨h1, h2, ?_, ?_⟩
    · show pyLen (joinSpace (st.current ++ [s])) ≤ st.curr_len + pyLen s + 1
      by_cases hcur : st.current = []
      · rw [hcur]
        show pyLen (joinSpace [s]) ≤ st.curr_len + pyLen s + 1
        show pyLen s ≤ st.curr_len + pyLen s + 1
        omega
      · rw [joinSpace_append_singleton st.current s hcur, pyLen_append, pyLen_append,
          hsp]
        omega
    · show pyLen (pyStrip (joinSpace (st.current ++ [s]))) ≤ cs + M
      by_cases hcur : st.current = []
      · rw [hcur]
        show pyLen (pyStrip (joinSpace [s])) ≤ cs + M
        show pyLen (pyStrip s) ≤ cs + M
        have := pyLen_pyStrip_le s
        omega
      · have hle : st.curr_len + pyLen s ≤ cs := by
          rcases not_and_or.mp hcond with hnlt | hne
          · omega
          · exact absurd hcur hne
        by_cases hs0 : pyLen s = 0
        · have hempty : s = "" := eq_empty_of_pyLen_zero s hs0
          subst hempty
          rw [joinSpace_append_singleton st.current "" hcur,
            string_append_empty, pyStrip_append_space]
          exact h4
        · have hM1 : 1 ≤ M := by omega
          calc pyLen (pyStrip (joinSpace (st.current ++ [s])))
              ≤ pyLen (joinSpace (st.current ++ [s])) := pyLen_pyStrip_le _
            _ = pyLen (joinSpace st.current) + 1 + pyLen s := by
                rw [joinSpace_append_singleton st.current s hcur, pyLen_append,
                  pyLen_append, hsp]
            _ ≤ cs + M := by omega

/-- The `_split_text` invariant holds after folding over any sentence
list whose lengths are bounded by `M`. -/
theorem splitFold_inv (cs co M : Nat) (src : String) (hco1 : 1 ≤ co)
    (hcs : co < cs) :
    ∀ (sents : List String), (∀ x ∈ sents, pyLen x ≤ M) →
    ∀ st : SplitState,
      ((∀ c ∈ st.chunks, c.char_count ≤ cs + M) ∧
       (∀ o ∈ st.overlaps, pyLen o ≤ co) ∧
       pyLen (joinSpace st.current) ≤ st.curr_len ∧
       pyLen (pyStrip (joinSpace st.current)) ≤ cs + M) →
      ((∀ c ∈ (sents.foldl (splitStep cs co src) st).chunks,
          c.char_count ≤ cs + M) ∧
       (∀ o ∈ (sents.foldl (splitStep cs co src) st).overlaps, pyLen o ≤ co) ∧
       pyLen (joinSpace (sents.foldl (splitStep cs co src) st).current)
         ≤ (sents.foldl (splitStep cs co src) st).curr_len ∧
       pyLen (pyStrip (joinSpace (sents.foldl (splitStep cs co src) st).current))
         ≤ cs + M) := by
  intro sents
  induction sents with
  | nil => intro _ st h; simpa using h
  | cons s rest ih =>
    intro hM st h
    rw [List.foldl_cons]
    exact ih (fun x hx => hM x (List.mem_cons_of_mem s hx)) _
      (splitStep_inv cs co M src st s hco1 hcs (hM s (List.mem_cons_self s rest))
        h.1 h.2.1 h.2.2.1 h.2.2.2)

/-- The final flush keeps all chunk sizes within the bound. -/
theorem splitFlush_chunks (cs M : Nat) (src : String) (st : SplitState)
    (h1 : ∀ c ∈ st.chunks, c.char_count ≤ cs + M)
    (h4 : pyLen (pyStrip (joinSpace st.current)) ≤ cs + M) :
    ∀ c ∈ splitFlush src st, c.char_count ≤ cs + M := by
  intro c hc
  simp only [splitFlush] at hc
  split at hc
  · split at hc
    · rcases List.mem_append.mp hc with hold | hnew
      · exact h1 c hold
      · rcases List.mem_singleton.mp hnew with rfl
        exact h4
    · exact h1 c hc
  · exact h1 c hc

/-- Claim C2, amended with `1 ≤ chunk_overlap`: when
`0 < chunk_overlap < chunk_size`, every produced chunk's `char_count`
exceeds `chunk_size` by at most the longest sentence length (only an
oversized atomic sentence can push a chunk past the cap), and every
overlap seed carried into the next chunk has at most `chunk_overlap`
characters.  (For `chunk_overlap = 0` both bounds fail, because the
Python slice `chunk_text[-0:]` is the *whole* chunk text — see the
counterexample.) -/
theorem C2_chunk_and_overlap_bounds (cs co : Nat) (text source : String)
    (hco : 1 ≤ co) (hcs : co < cs) :
    (∀ c ∈ _split_text cs co text source,
      c.char_count ≤ cs + maxSentLen text) ∧
    (∀ o ∈ splitOverlaps cs co text source, pyLen o ≤ co) := by
  have hM : ∀ x ∈ pySplitSentences text, pyLen x ≤ maxSentLen text :=
    fun x hx => pyLen_le_maxSentLen text x hx
  have hinit :
      (∀ c ∈ (SplitState.mk [] [] 0 []).chunks,
        c.char_count ≤ cs + maxSentLen text) ∧
      (∀ o ∈ (SplitState.mk [] [] 0 []).overlaps, pyLen o ≤ co) ∧
      pyLen (joinSpace (SplitState.mk [] [] 0 []).current)
        ≤ (SplitState.mk [] [] 0 []).curr_len ∧
      pyLen (pyStrip (joinSpace (SplitState.mk [] [] 0 []).current))
        ≤ cs + maxSentLen text := by
    refine ⟨by simp, by simp, ?_, ?_⟩
    · show pyLen (joinSpace []) ≤ 0
      rfl
    · show pyLen (pyStrip (joinSpace [])) ≤ cs + maxSentLen text
      have := pyLen_pyStrip_le (joinSpace [])
      have hz : pyLen (joinSpace []) = 0 := rfl
      omega
  have h := splitFold_inv cs co (maxSentLen text) source hco hcs
    (pySplitSentences text) hM (SplitState.mk [] [] 0 []) hinit
  constructor
  · exact splitFlush_chunks cs (maxSentLen text) source _ h.1 h.2.2.2
  · exact h.2.1

/-- Witness for the amended C2 at a concrete input
(`chunk_size = 5`, `chunk_overlap = 2`). -/
theorem C2_chunk_and_overlap_bounds_witness :
    (∀ c ∈ _split_text 5 2 "abc. de. fg." "s",
      c.char_count ≤ 5 + maxSentLen "abc. de. fg.") ∧
    (∀ o ∈ splitOverlaps 5 2 "abc. de. fg." "s", pyLen o ≤ 2) :=
  C2_chunk_and_overlap_bounds 5 2 "abc. de. fg." "s" (by decide) (by decide)

/-- Counterexample for claim C2 as stated: its precondition
`chunk_overlap < chunk_size` admits `chunk_overlap = 0`, where the
overlap seed `chunk_text[-0:]` is the whole previous chunk text, so
chunks snowball: on `"abc. def. ghi."` with `chunk_size = 5` a chunk of
14 characters appears (exceeding `chunk_size` by more than any sentence
length, all sentences having 4 characters) and a 4-character overlap
segment exceeds `chunk_overlap = 0`. -/
theorem C2_counterexample :
    0 < 5 ∧
    (∃ c ∈ _split_text 5 0 "abc. def. ghi." "s",
      5 + maxSentLen "abc. def. ghi." < c.char_count) ∧
    (∃ o ∈ splitOverlaps 5 0 "abc. def. ghi." "s", 0 < pyLen o) := by
  refine ⟨by decide, by decide, by decide⟩

/-! ### Theorems: evaluator (claims C4, C7) -/

/-- `Rat.floor` is the `⌊·⌋` of ℚ's floor-ring structure. -/
theorem rat_floor_eq (q : ℚ) : Rat.floor q = ⌊q⌋ := rfl

/-- Round-half-to-even never rounds below the floor. -/
theorem rhe_ge_floor (q : ℚ) : ⌊q⌋ ≤ rhe q := by
  simp only [rhe, rat_floor_eq]
  split
  · exact le_refl _
  · split
    · omega
    · split <;> omega

/-- Round-half-to-even of a non-negative rational is non-negative. -/
theorem rhe_nonneg (q : ℚ) (h : 0 ≤ q) : 0 ≤ rhe q :=
  le_trans (Int.floor_nonneg.mpr h) (rhe_ge_floor q)

/-- Round-half-to-even never rounds past an integer upper bound. -/
theorem rhe_le_of_le (z : ℤ) (q : ℚ) (h : q ≤ z) : rhe q ≤ z := by
  have hfl : ⌊q⌋ ≤ z := by
    have := Int.floor_le_floor h
    simpa using this
  have hfloor_le : (⌊q⌋ : ℚ) ≤ q := Int.floor_le q
  simp only [rhe, rat_floor_eq]
  split
  · exact hfl
  · rename_i hr1
    push_neg at hr1
    have hlt : ⌊q⌋ < z := by
      by_contra hcon
      push_neg at hcon
      have hzf : ⌊q⌋ = z := le_antisymm hfl hcon
      rw [hzf] at hr1
      have : (z : ℚ) + 1/2 ≤ q := by linarith
      linarith
    split
    · omega
    · split <;> omega

/-- `round(·, 4)` of a non-negative value is non-negative. -/
theorem round4_nonneg (q : ℚ) (h : 0 ≤ q) : 0 ≤ round4 q := by
  have h1 : 0 ≤ rhe (q * 10000) := rhe_nonneg _ (by positivity)
  have h2 : (0 : ℚ) ≤ ((rhe (q * 10000) : ℤ) : ℚ) := by exact_mod_cast h1
  unfold round4
  positivity

/-- `round(·, 4)` of a value at most one is at most one. -/
theorem round4_le_one (q : ℚ) (h : q ≤ 1) : round4 q ≤ 1 := by
  have h1 : rhe (q * 10000) ≤ 10000 := by
    apply rhe_le_of_le
    push_cast
    nlinarith
  unfold round4
  rw [div_le_one (by norm_num)]
  exact_mod_cast h1

/-- Evaluation rule for `round4` when the scaled value lies in the
lower half of its unit interval. -/
theorem round4_eq_of (z : ℤ) (q : ℚ) (h1 : (z : ℚ) ≤ q * 10000)
    (h2 : q * 10000 < z + 1/2) : round4 q = (z : ℚ) / 10000 := by
  have hfl : ⌊q * 10000⌋ = z := Int.floor_eq_iff.mpr ⟨h1, by linarith⟩
  simp only [round4, rhe, rat_floor_eq, hfl]
  rw [if_pos (by linarith)]

/-- `_faithfulness` always lands in `[0, 1]`. -/
theorem faithfulness_bounds (answer : String) (contexts : List String) :
    0 ≤ _faithfulness answer contexts ∧ _faithfulness answer contexts ≤ 1 := by
  simp only [_faithfulness]
  split
  · norm_num
  · split
    · norm_num
    · rename_i hne hsent
      have hlen : (pySplitSentClean answer).length ≠ 0 := by
        intro h0
        exact hsent (List.isEmpty_iff.mpr (List.length_eq_zero.mp h0))
      have hpos : (0 : ℚ) < ((pySplitSentClean answer).length : ℚ) := by
        exact_mod_cast Nat.pos_of_ne_zero hlen
      constructor
      · apply round4_nonneg
        positivity
      · apply round4_le_one
        rw [div_le_one hpos]
        exact_mod_cast List.countP_le_length _

/-- `_answer_relevancy` always lands in `[0, 1]`. -/
theorem relevancy_bounds (question answer : String) :
    0 ≤ _answer_relevancy question answer ∧ _answer_relevancy question answer ≤ 1 := by
  simp only [_answer_relevancy]
  split
  · norm_num
  · split
    · norm_num
    · rename_i hne hq
      have hcard : ((pyTokenize question).toFinset \ stopwords).card ≠ 0 := by
        intro h0
        exact hq (Finset.card_eq_zero.mp h0)
      have hpos : (0 : ℚ) < (((pyTokenize question).toFinset \ stopwords).card : ℚ) := by
        exact_mod_cast Nat.pos_of_ne_zero hcard
      have hsc0 : (0 : ℚ) ≤
          min ((((pyTokenize question).toFinset \ stopwords ∩ (pyTokenize answer).toFinset).card : ℚ)
            / (((pyTokenize question).toFinset \ stopwords).card : ℚ)) 1 :=
        le_min (by positivity) (by norm_num)
      have hsc1 :
          min ((((pyTokenize question).toFinset \ stopwords ∩ (pyTokenize answer).toFinset).card : ℚ)
            / (((pyTokenize question).toFinset \ stopwords).card : ℚ)) 1 ≤ 1 :=
        min_le_right _ _
      split
      · exact ⟨round4_nonneg _ (by nlinarith), round4_le_one _ (by nlinarith)⟩
      · exact ⟨round4_nonneg _ hsc0, round4_le_one _ hsc1⟩

/-- `_context_precision` always lands in `[0, 1]`. -/
theorem precision_bounds (question : String) (contexts : List String) :
    0 ≤ _context_precision question contexts ∧ _context_precision question contexts ≤ 1 := by
  simp only [_context_precision]
  split
  · norm_num
  · split
    · norm_num
    · rename_i hne hq
      have hlen : contexts.length ≠ 0 := by
        intro h0
        exact hne (List.isEmpty_iff.mpr (List.length_eq_zero.mp h0))
      have hpos : (0 : ℚ) < (contexts.length : ℚ) := by
        exact_mod_cast Nat.pos_of_ne_zero hlen
      constructor
      · apply round4_nonneg
        positivity
      · apply round4_le_one
        rw [div_le_one hpos]
        exact_mod_cast List.countP_le_length _

/-- `_context_recall` always lands in `[0, 1]`. -/
theorem recall_bounds (contexts : List String) (ground_truth : String) :
    0 ≤ _context_recall contexts ground_truth ∧
      _context_recall contexts ground_truth ≤ 1 := by
  simp only [_context_recall]
  split
  · norm_num
  · split
    · norm_num
    · constructor
      · apply round4_nonneg
        exact le_min (by positivity) (by norm_num)
      · exact round4_le_one _ (min_le_right _ _)

/-- `_answer_correctness` always lands in `[0, 1]` (the token F1 of two
non-disjoint multisets is in `(0, 1]`). -/
theorem correctness_bounds (answer ground_truth : String) :
    0 ≤ _answer_correctness answer ground_truth ∧
      _answer_correctness answer ground_truth ≤ 1 := by
  simp only [_answer_correctness]
  split
  · norm_num
  · split
    · norm_num
    · rename_i hne hcommon
      set aT : Multiset String := (↑(pyTokenize answer) : Multiset String) with haT
      set gT : Multiset String := (↑(pyTokenize ground_truth) : Multiset String) with hgT
      have hcA : Multiset.card (aT ∩ gT) ≤ Multiset.card aT :=
        Multiset.card_le_card (Multiset.inter_le_left aT gT)
      have hcG : Multiset.card (aT ∩ gT) ≤ Multiset.card gT :=
        Multiset.card_le_card (Multiset.inter_le_right aT gT)
      have hc1 : 1 ≤ Multiset.card (aT ∩ gT) := Nat.pos_of_ne_zero hcommon
      have hApos : (0 : ℚ) < (Multiset.card aT : ℚ) := by
        have : 1 ≤ Multiset.card aT := le_trans hc1 hcA
        exact_mod_cast this
      have hGpos : (0 : ℚ) < (Multiset.card gT : ℚ) := by
        have : 1 ≤ Multiset.card gT := le_trans hc1 hcG
        exact_mod_cast this
      have hCpos : (0 : ℚ) < (Multiset.card (aT ∩ gT) : ℚ) := by exact_mod_cast hc1
      set p : ℚ := (Multiset.card (aT ∩ gT) : ℚ) / (Multiset.card aT : ℚ) with hp
      set r : ℚ := (Multiset.card (aT ∩ gT) : ℚ) / (Multiset.card gT : ℚ) with hr
      have hp0 : 0 < p := div_pos hCpos hApos
      have hr0 : 0 < r := div_pos hCpos hGpos
      have hp1 : p ≤ 1 := by
        rw [hp, div_le_one hApos]
        exact_mod_cast hcA
      have hr1 : r ≤ 1 := by
        rw [hr, div_le_one hGpos]
        exact_mod_cast hcG
      constructor
      · apply round4_nonneg
        positivity
      · apply round4_le_one
        rw [div_le_one (by linarith)]
        nlinarith

/-- The non-null metric scores of an `evaluate` result, by ground-truth
presence. -/
theorem validScores_evaluate (q a : String) (c : List String) (g : Option String) :
    validScores (evaluate q a c g) =
      if pyTruthy g then
        [_faithfulness a c, _answer_relevancy q a, _context_precision q c,
         _context_recall c (g.getD ""), _answer_correctness a (g.getD "")]
      else [_faithfulness a c, _answer_relevancy q a, _context_precision q c] := by
  cases hg : pyTruthy g <;>
    simp [evaluate, validScores, List.reduceOption, hg]

/-- The returned aggregate is the 4-decimal rounding of the mean of the
returned non-null metric scores (the "no metrics" fallback branch is
never taken: three metrics are always present). -/
theorem aggregate_evaluate (q a : String) (c : List String) (g : Option String) :
    (evaluate q a c g).aggregate =
      round4 ((validScores (evaluate q a c g)).sum
        / ((validScores (evaluate q a c g)).length : ℚ)) := by
  rw [validScores_evaluate]
  cases hg : pyTruthy g <;>
    simp [evaluate, List.reduceOption, hg]

/-- The returned label is exactly the documented threshold chain applied
to the returned aggregate. -/
theorem label_evaluate (q a : String) (c : List String) (g : Option String) :
    (evaluate q a c g).quality_label =
      (if (0.8 : ℚ) ≤ (evaluate q a c g).aggregate then "Excellent ✅"
       else if (0.6 : ℚ) ≤ (evaluate q a c g).aggregate then "Good 🟡"
       else if (0.4 : ℚ) ≤ (evaluate q a c g).aggregate then "Fair 🟠"
       else "Poor 🔴") := rfl

/-- A list of rationals bounded by one sums to at most its length. -/
theorem sum_le_length_of_le_one (l : List ℚ) (h : ∀ x ∈ l, x ≤ 1) :
    l.sum ≤ (l.length : ℚ) := by
  induction l with
  | nil => simp
  | cons x xs ih =>
    simp only [List.sum_cons, List.length_cons]
    push_cast
    have h1 := h x (by simp)
    have h2 := ih (fun y hy => h y (by simp [hy]))
    linarith

/-- Claim C4, amended: `evaluate` returns an aggregate equal to the
arithmetic mean of the non-null metric scores *rounded to four decimal
places* (the code applies `round(·, 4)`, so the returned aggregate can
differ from the exact mean — see the counterexample), the aggregate lies
in `[0, 1]`, and the quality label follows the documented thresholds
(`≥ 0.8` Excellent, `≥ 0.6` Good, `≥ 0.4` Fair, else Poor). -/
theorem C4_evaluate_contract (question answer : String) (contexts : List String)
    (ground_truth : Option String) :
    (evaluate question answer contexts ground_truth).aggregate
      = round4 ((validScores (evaluate question answer contexts ground_truth)).sum
          / ((validScores (evaluate question answer contexts ground_truth)).length : ℚ)) ∧
    0 ≤ (evaluate question answer contexts ground_truth).aggregate ∧
    (evaluate question answer contexts ground_truth).aggregate ≤ 1 ∧
    (evaluate question answer contexts ground_truth).quality_label =
      (if (0.8 : ℚ) ≤ (evaluate question answer contexts ground_truth).aggregate
        then "Excellent ✅"
       else if (0.6 : ℚ) ≤ (evaluate question answer contexts ground_truth).aggregate
        then "Good 🟡"
       else if (0.4 : ℚ) ≤ (evaluate question answer contexts ground_truth).aggregate
        then "Fair 🟠"
       else "Poor 🔴") := by
  have hmem : ∀ x ∈ validScores (evaluate question answer contexts ground_truth),
      0 ≤ x ∧ x ≤ 1 := by
    rw [validScores_evaluate]
    split
    · intro x hx
      simp only [List.mem_cons, List.not_mem_nil, or_false] at hx
      rcases hx with rfl | rfl | rfl | rfl | rfl
      · exact faithfulness_bounds answer contexts
      · exact relevancy_bounds question answer
      · exact precision_bounds question contexts
      · exact recall_bounds contexts _
      · exact correctness_bounds answer _
    · intro x hx
      simp only [List.mem_cons, List.not_mem_nil, or_false] at hx
      rcases hx with rfl | rfl | rfl
      · exact faithfulness_bounds answer contexts
      · exact relevancy_bounds question answer
      · exact precision_bounds question contexts
  have hlen : (validScores (evaluate question answer contexts ground_truth)).length ≠ 0 := by
    rw [validScores_evaluate]
    split <;> simp
  have hpos : (0 : ℚ) <
      ((validScores (evaluate question answer contexts ground_truth)).length : ℚ) := by
    exact_mod_cast Nat.pos_of_ne_zero hlen
  have hsum0 : 0 ≤ (validScores (evaluate question answer contexts ground_truth)).sum :=
    List.sum_nonneg (fun x hx => (hmem x hx).1)
  have hsum1 : (validScores (evaluate question answer contexts ground_truth)).sum
      ≤ ((validScores (evaluate question answer contexts ground_truth)).length : ℚ) :=
    sum_le_length_of_le_one _ (fun x hx => (hmem x hx).2)
  refine ⟨aggregate_evaluate question answer contexts ground_truth, ?_, ?_,
    label_evaluate question answer contexts ground_truth⟩
  · rw [aggregate_evaluate]
    exact round4_nonneg _ (div_nonneg hsum0 (le_of_lt hpos))
  · rw [aggregate_evaluate]
    exact round4_le_one _ ((div_le_one hpos).mpr hsum1)

/-- Faithfulness on the C4 counterexample input: one of the two answer
sentences is supported, so the score is `round4(1/2) = 1/2`. -/
theorem faithfulness_c4ce :
    _faithfulness "France is nice. Blarg zorp quux." ["France is nice."] = 1/2 := by
  have hsent : pySplitSentClean "France is nice. Blarg zorp quux."
      = ["France is nice.", "Blarg zorp quux."] := by decide
  simp only [_faithfulness]
  rw [if_neg (by decide), hsent, if_neg (by decide)]
  have hp1 : (decide ((pyTokenize "France is nice.").toFinset ≠ ∅ ∧
      (1 : ℚ)/2 < (((pyTokenize "France is nice.").toFinset ∩
          (pyTokenize (pyLower (joinSpace ["France is nice."]))).toFinset).card : ℚ) /
        ((pyTokenize "France is nice.").toFinset.card : ℚ))) = true := by
    rw [decide_eq_true_eq]
    refine ⟨by decide, ?_⟩
    have h1 : ((pyTokenize "France is nice.").toFinset ∩
        (pyTokenize (pyLower (joinSpace ["France is nice."]))).toFinset).card = 3 := by
      decide
    have h2 : (pyTokenize "France is nice.").toFinset.card = 3 := by decide
    rw [h1, h2]
    norm_num
  have hp2 : (decide ((pyTokenize "Blarg zorp quux.").toFinset ≠ ∅ ∧
      (1 : ℚ)/2 < (((pyTokenize "Blarg zorp quux.").toFinset ∩
          (pyTokenize (pyLower (joinSpace ["France is nice."]))).toFinset).card : ℚ) /
        ((pyTokenize "Blarg zorp quux.").toFinset.card : ℚ))) = false := by
    rw [decide_eq_false_iff_not]
    rintro ⟨-, hlt⟩
    have h1 : ((pyTokenize "Blarg zorp quux.").toFinset ∩
        (pyTokenize (pyLower (joinSpace ["France is nice."]))).toFinset).card = 0 := by
      decide
    have h2 : (pyTokenize "Blarg zorp quux.").toFinset.card = 3 := by decide
    rw [h1, h2] at hlt
    norm_num at hlt
  simp only [List.countP_cons, List.countP_nil, hp1, hp2, if_true, if_false]
  norm_num
  rw [round4_eq_of 5000 (1/2) (by norm_num) (by norm_num)]
  norm_num

/-- Answer relevancy on the C4 counterexample input: the only question
token is the stop word "what", so the neutral `0.5` is returned. -/
theorem relevancy_c4ce :
    _answer_relevancy "What?" "France is nice. Blarg zorp quux." = 1/2 := by
  have hq : (pyTokenize "What?").toFinset \ stopwords = ∅ := by decide
  simp only [_answer_relevancy]
  rw [if_neg (by decide), if_pos hq]

/-- Context precision on the C4 counterexample input: the context shares
no token with the question, so the score is `0`. -/
theorem precision_c4ce :
    _context_precision "What?" ["France is nice."] = 0 := by
  simp only [_context_precision]
  rw [if_neg (by decide), if_neg (by decide)]
  have hp : (decide ((3 : ℚ)/10 <
      (((pyTokenize "What?").toFinset ∩ (pyTokenize "France is nice.").toFinset).card : ℚ) /
        ((pyTokenize "What?").toFinset.card : ℚ))) = false := by
    rw [decide_eq_false_iff_not]
    intro hlt
    have h1 : ((pyTokenize "What?").toFinset ∩ (pyTokenize "France is nice.").toFinset).card
        = 0 := by decide
    have h2 : (pyTokenize "What?").toFinset.card = 1 := by decide
    rw [h1, h2] at hlt
    norm_num at hlt
  simp only [List.countP_cons, List.countP_nil, hp, if_false]
  norm_num
  rw [round4_eq_of 0 0 (by norm_num) (by norm_num)]
  norm_num

/-- Counterexample for claim C4 as stated: on question "What?", answer
"France is nice. Blarg zorp quux.", contexts ["France is nice."] and no
ground truth, the non-null metric scores are `[1/2, 1/2, 0]` with exact
mean `1/3`, but the returned aggregate is the rounded `3333/10000 ≠ 1/3`,
so the aggregate is *not* equal to the arithmetic mean of the non-null
metric scores. -/
theorem C4_counterexample :
    validScores (evaluate "What?" "France is nice. Blarg zorp quux."
        ["France is nice."] none) = [1/2, 1/2, 0] ∧
    (evaluate "What?" "France is nice. Blarg zorp quux."
        ["France is nice."] none).aggregate = 3333/10000 ∧
    (evaluate "What?" "France is nice. Blarg zorp quux."
        ["France is nice."] none).aggregate ≠
      (validScores (evaluate "What?" "France is nice. Blarg zorp quux."
          ["France is nice."] none)).sum /
        ((validScores (evaluate "What?" "France is nice. Blarg zorp quux."
            ["France is nice."] none)).length : ℚ) := by
  have hv : validScores (evaluate "What?" "France is nice. Blarg zorp quux."
      ["France is nice."] none) = [1/2, 1/2, 0] := by
    rw [validScores_evaluate]
    show [_faithfulness "France is nice. Blarg zorp quux." ["France is nice."],
      _answer_relevancy "What?" "France is nice. Blarg zorp quux.",
      _context_precision "What?" ["France is nice."]] = [1/2, 1/2, 0]
    rw [faithfulness_c4ce, relevancy_c4ce, precision_c4ce]
  have hagg : (evaluate "What?" "France is nice. Blarg zorp quux."
      ["France is nice."] none).aggregate = 3333/10000 := by
    rw [aggregate_evaluate, hv]
    have hs : ([1/2, 1/2, 0] : List ℚ).sum = 1 := by
      norm_num [List.sum_cons, List.sum_nil]
    have hl : (([1/2, 1/2, 0] : List ℚ).length : ℚ) = 3 := by
      simp
    rw [hs, hl]
    rw [round4_eq_of 3333 (1/3) (by norm_num) (by norm_num)]
    norm_num
  refine ⟨hv, hagg, ?_⟩
  rw [hagg, hv]
  norm_num

/-- Claim C7: for answer "Paris is the capital of France." and the single
context "France's capital is Paris, a major European city.", the
faithfulness metric is exactly `1.0` — the one answer sentence's token
set (6 tokens) overlaps the context token set in 4 tokens, and
`4/6 > 1/2`. -/
theorem C7_faithfulness_scenario :
    _faithfulness "Paris is the capital of France."
      ["France's capital is Paris, a major European city."] = 1 := by
  have hsent : pySplitSentClean "Paris is the capital of France."
      = ["Paris is the capital of France."] := by decide
  simp only [_faithfulness]
  rw [if_neg (by decide), hsent, if_neg (by decide)]
  have hp1 : (decide ((pyTokenize "Paris is the capital of France.").toFinset ≠ ∅ ∧
      (1 : ℚ)/2 < (((pyTokenize "Paris is the capital of France.").toFinset ∩
          (pyTokenize (pyLower (joinSpace
            ["France's capital is Paris, a major European city."]))).toFinset).card : ℚ) /
        ((pyTokenize "Paris is the capital of France.").toFinset.card : ℚ))) = true := by
    rw [decide_eq_true_eq]
    refine ⟨by decide, ?_⟩
    have h1 : ((pyTokenize "Paris is the capital of France.").toFinset ∩
        (pyTokenize (pyLower (joinSpace
          ["France's capital is Paris, a major European city."]))).toFinset).card = 4 := by
      decide
    have h2 : (pyTokenize "Paris is the capital of France.").toFinset.card = 6 := by
      decide
    rw [h1, h2]
    norm_num
  simp only [List.countP_cons, List.countP_nil, hp1, if_true]
  norm_num
  rw [round4_eq_of 10000 1 (by norm_num) (by norm_num)]
  norm_num
